import Mathlib

/-!
# Verification of the sconn-client core against its specification

Shallow embedding of the TypeScript sources of hanxi/sconn-client
(`src/sproto/sproto.ts`, `src/sconn.ts`, `src/buffer.ts`, `src/conn.ts`)
together with proofs settling the frozen claims C1..C10.

Bytes are modelled as `Nat` (all values appearing in the programs are
byte-sized; JavaScript `number[]` buffers impose no truncation).
JavaScript out-of-range array reads (`undefined`) occurring only on
malformed inputs are modelled as the byte 0 where noted.
-/

namespace Sconn

/-! ## The sproto packer (sproto.ts, `sproto_pack` / `sproto_unpack`)

`sproto_pack` (sproto.ts 1111-1180) walks the input in 8-byte groups,
padding the last group with zeros (the `tmp` buffer, lines 1125-1137).
`pack_seg` (1058-1095) counts the nonzero bytes of the group, writes
them after a header byte whose bit `i` is set iff byte `i` is nonzero,
and signals an `0xFF` literal-run for incompressible groups: a group
with all 8 bytes nonzero starts a run (return value 10), and while a
run is open, groups with 6, 7 or 8 nonzero bytes extend it (return
value 8, via the `notzero === 7 || notzero === 6` promotion).  A run is
flushed by `write_ff` (1097-1109) - which emits `0xFF`, a group-count
byte, and the literal group bytes - when a compressible group breaks
it, when it reaches 256 groups, or at the end of the input.

The embedding below makes the buffer writes explicit as in-order output
segments: `write_ff` always fills exactly the region that the run
reserved, and the provisional bytes `pack_seg` stores for run members
are fully overwritten by `write_ff`, so the final buffer is the
concatenation of the per-group segments in group order.  The run kept
in the state is the list of (zero-padded) groups of the open run; the
end-of-input flush `write_ff(.., srcsz - ff_srcstart_idx)` reads the
original source bytes of the run and zero-pads to a multiple of 8,
which is exactly the concatenation of the padded groups. -/

/-- Return value of `sproto_unpack`: `-1` on malformed input, otherwise
the number of bytes produced; `nan` models the JavaScript `NaN` that
arises when the input ends directly after an `0xFF` header (the
`src[src_idx]` read of the count byte yields `undefined`). -/
inductive UnpackRet where
  | fail : UnpackRet
  | nan : UnpackRet
  | size (n : Nat) : UnpackRet
deriving Repr, DecidableEq

/-- Add `n` produced bytes to an unpack return value (errors absorb). -/
def UnpackRet.add (r : UnpackRet) (n : Nat) : UnpackRet :=
  match r with
  | .size s => .size (s + n)
  | x => x

/-- State of the 8-bit expansion loop of `sproto_unpack` (the non-`0xFF`
branch, sproto.ts 1214-1238): produced bytes, remaining source, whether
`srcsz` has gone negative (a set bit consumed a byte past the end; the
copied `undefined` is modelled as 0), and whether `-1` was returned
(a set bit was reached while `srcsz < 0`). -/
structure BitsOut where
  out : List Nat
  rest : List Nat
  neg : Bool
  err : Bool
deriving Repr, DecidableEq

/-- The 8-bit expansion loop of `sproto_unpack`: for each bit of the
header (low to high), a set bit copies the next source byte and a clear
bit emits 0.  The first argument counts the bits still to process; the
header is shifted right at each step (`(header >>> i) & 1`). -/
def unpackBits : Nat → Nat → List Nat → Bool → BitsOut
  | 0, _, src, neg => ⟨[], src, neg, false⟩
  | k + 1, header, src, neg =>
    if header % 2 = 1 then
      if neg then
        ⟨[], src, neg, true⟩
      else
        match src with
        | [] =>
          let r := unpackBits k (header / 2) [] true
          ⟨0 :: r.out, r.rest, r.neg, r.err⟩
        | b :: rest =>
          let r := unpackBits k (header / 2) rest neg
          ⟨b :: r.out, r.rest, r.neg, r.err⟩
    else
      let r := unpackBits k (header / 2) src neg
      ⟨0 :: r.out, r.rest, r.neg, r.err⟩

/-- The main loop of `sproto_unpack` (sproto.ts 1182-1241), with fuel
for the `while (srcsz > 0)` loop (each iteration consumes at least the
header byte, so `src.length` fuel suffices).  Returns the return value
of `sproto_unpack` together with the contents written to the output
buffer (which `api.unpack` returns even on error). -/
def unpackLoop : Nat → List Nat → UnpackRet × List Nat
  | 0, _ => (.size 0, [])
  | _ + 1, [] => (.size 0, [])
  | fuel + 1, header :: rest =>
    if header = 255 then
      match rest with
      | [] => (.nan, [])
      | cnt :: rest2 =>
        let n := (cnt + 1) * 8
        if rest.length < n + 1 then
          (.fail, [])
        else
          let r := unpackLoop fuel (rest2.drop n)
          (r.1.add n, rest2.take n ++ r.2)
    else
      let b := unpackBits 8 header rest false
      if b.err then
        (.fail, b.out)
      else if b.neg then
        (.size b.out.length, b.out)
      else
        let r := unpackLoop fuel b.rest
        (r.1.add 8, b.out ++ r.2)

/-- `sproto_unpack` (sproto.ts 1182-1241). -/
def sproto_unpack (src : List Nat) : UnpackRet × List Nat :=
  unpackLoop src.length src

/-- `api.unpack` (sproto.ts 1253-1259): the return value of
`sproto_unpack` is discarded and the buffer is returned as is. -/
def api_unpack (src : List Nat) : List Nat :=
  (sproto_unpack src).2

/-! ### Lemmas about the unpacker -/

theorem unpackLoop_zero (src : List Nat) : unpackLoop 0 src = (.size 0, []) := rfl

theorem unpackLoop_nil (fuel : Nat) : unpackLoop (fuel + 1) [] = (.size 0, []) := rfl

/-- C10: `api.unpack` never signals failure to its caller: it always returns
the output buffer of `sproto_unpack`, discarding the return value, so an
input that is exhausted inside an `0xFF` literal run (return value `-1`)
yields the partially filled buffer, indistinguishable from the result of a
successful unpack of a well-formed input. -/
theorem c10_unpack_swallows_error :
    (∀ src : List Nat, api_unpack src = (sproto_unpack src).2) ∧
    (sproto_unpack [1, 7, 255, 0]).1 = .fail ∧
    api_unpack [1, 7, 255, 0] = [7, 0, 0, 0, 0, 0, 0, 0] ∧
    (sproto_unpack [1, 7]).1 = .size 8 ∧
    api_unpack [1, 7] = api_unpack [1, 7, 255, 0] :=
  ⟨fun _ => rfl, by decide, by decide, by decide, by decide⟩

/-! ## Crypto utilities (sconn.ts, `CryptUtils`)

Only the parts the claims refer to are embedded: the Diffie-Hellman
secret derivation (`dhSecret`, sconn.ts 43-48) and its helpers
`bytesToBigInt` (53-59), `bigIntToBytes` (64-71) and `modPow` (76-87).
JavaScript `BigInt` arithmetic on nonnegative values is `Nat`
arithmetic. -/

/-- The RFC 3526 2048-bit MODP prime (sconn.ts 21, `DH_P`). -/
def DH_P : Nat :=
  0xFFFFFFFFFFFFFFFFC90FDAA22168C234C4C6628B80DC1CD129024E088A67CC74020BBEA63B139B22514A08798E3404DDEF9519B3CD3A431B302B0A6DF25F14374FE1356D6D51C245E485B576625E7EC6F44C42E9A637ED6B0BFF5CB6F406B7EDEE386BFB5A899FA5AE9F24117C4B1FE649286651ECE45B3DC2007CB8A163BF0598DA48361C55D39A69163FA8FD24CF5F83655D23DCA3AD961C62F356208552BB9ED529077096966D670C354E4ABC9804F1746C08CA18217C32905E462E36CE3BE39E772C180E86039B2783A2EC07A28FB5C55DF06F4C52C9DE2BCBF6955817183995497CEA956AE515D2261898FA051015728E5A8AAAC42DAD33170D04507A33A85521ABDF1CBA64ECFB850458DBEF0A8AEA71575D060C7DB3970F85A6E1E4C7ABF5AE8CDB0933D71E8C94E04A25619DCEE3D2261AD2EE6BF12FFA06D98A0864D87602733EC86A64521F2B18177B200CBBE117577A615D6C770988C0BAD946E208E24FA074E5AB3143DB5BFCE0FD108E4B82D120A93AD2CAFFFFFFFFFFFFFFFF

/-- `CryptUtils.bytesToBigInt`: big-endian bytes to a number. -/
def bytesToBigInt (bytes : List Nat) : Nat :=
  bytes.foldl (fun r b => r * 256 + b) 0

/-- `CryptUtils.bigIntToBytes`: the loop writes `bigint & 0xFF` at index
`i` for `i = length-1` down to `0`, shifting right by 8 each time, i.e. the
low `length` bytes of the number in big-endian order. -/
def bigIntToBytes (n : Nat) : Nat → List Nat
  | 0 => []
  | k + 1 => bigIntToBytes (n / 256) k ++ [n % 256]

/-- The square-and-multiply `while (exponent > 0)` loop of
`CryptUtils.modPow`, with fuel (the exponent at least halves on every
iteration, so an initial fuel equal to the exponent suffices). -/
def modPowLoop : Nat → Nat → Nat → Nat → Nat → Nat
  | _, result, _, 0, _ => result
  | 0, result, _, _, _ => result
  | fuel + 1, result, base, e + 1, modulus =>
    let result := if (e + 1) % 2 = 1 then result * base % modulus else result
    modPowLoop fuel result (base * base % modulus) ((e + 1) / 2) modulus

/-- `CryptUtils.modPow` (sconn.ts 76-87). -/
def modPow (base expo modulus : Nat) : Nat :=
  modPowLoop expo 1 (base % modulus) expo modulus

/-- `CryptUtils.dhSecret` (sconn.ts 43-48): the shared value reduced to
its low 32 bytes. -/
def dhSecret (serverPublicKey clientPrivateKey : List Nat) : List Nat :=
  bigIntToBytes (modPow (bytesToBigInt serverPublicKey) (bytesToBigInt clientPrivateKey) DH_P) 32

theorem bigIntToBytes_length (n : Nat) : ∀ k, (bigIntToBytes n k).length = k := by
  intro k
  induction k generalizing n with
  | zero => rfl
  | succ k ih => simp [bigIntToBytes, ih]

theorem bigIntToBytes_split (a b : Nat) :
    ∀ n, bigIntToBytes n (a + b) = bigIntToBytes (n / 256 ^ b) a ++ bigIntToBytes n b := by
  induction b with
  | zero => intro n; simp [bigIntToBytes]
  | succ b ih =>
    intro n
    show bigIntToBytes n (a + b + 1) = _
    rw [show bigIntToBytes n (a + b + 1) =
        bigIntToBytes (n / 256) (a + b) ++ [n % 256] from rfl,
      ih (n / 256),
      show bigIntToBytes n (b + 1) =
        bigIntToBytes (n / 256) b ++ [n % 256] from rfl,
      Nat.div_div_eq_div_mul, List.append_assoc]
    rw [show 256 * 256 ^ b = 256 ^ (b + 1) from (pow_succ' 256 b).symm]

theorem bigIntToBytes_drop_224 (n : Nat) :
    (bigIntToBytes n 256).drop 224 = bigIntToBytes n 32 := by
  rw [show (256 : Nat) = 224 + 32 from rfl, bigIntToBytes_split 224 32 n]
  have h := List.drop_left (bigIntToBytes (n / 256 ^ 32) 224) (bigIntToBytes n 32)
  rw [bigIntToBytes_length] at h
  exact h

set_option maxRecDepth 4000 in
/-- C2 counterexample: with server public key bytes `[2]` and client
private key bytes `[10]` the shared value is `2 ^ 10 mod p = 1024`; the
negotiated secret is the low 32 bytes `[0,...,0,4,0]`, while the leading
32 bytes of the 256-byte big-endian representation are all zero, so the
secret is not the leading 32 bytes of the shared value. -/
theorem c2_counterexample :
    dhSecret [2] [10] ≠
      (bigIntToBytes (modPow (bytesToBigInt [2]) (bytesToBigInt [10]) DH_P) 256).take 32 := by
  decide

/-- C2 amended: the negotiated 32-byte shared secret equals the trailing
(last, least-significant) 32 bytes of the 256-byte big-endian
representation of `(server_pub) ^ x mod p`. -/
theorem c2_dh_secret_is_low_bytes (pub priv : List Nat) :
    dhSecret pub priv =
      (bigIntToBytes (modPow (bytesToBigInt pub) (bytesToBigInt priv) DH_P) 256).drop 224 := by
  unfold dhSecret
  rw [bigIntToBytes_drop_224]

/-! ## The replay cache (sconn.ts, `class Cache`, lines 297-369)

The source keeps the frames in a dictionary keyed by an increasing
counter `top`; `insert` stores at `top + 1` and deletes the entry at
`top - CACHE_MAX_COUNT` (present exactly when more than
`CACHE_MAX_COUNT` frames remain), so the live keys are a contiguous
range and the dictionary is a queue of the most recent frames, oldest
first - the representation used here. `get` walks the keys from `top`
downwards (newest to oldest), stopping at a missing key, prepending each
frame and slicing the oldest included frame to its tail. -/

def CACHE_MAX_COUNT : Nat := 100

structure Cache where
  size : Nat
  entries : List (List Nat)
deriving Repr, DecidableEq

def Cache.empty : Cache := ⟨0, []⟩

/-- `Cache.insert` (sconn.ts 305-316). -/
def Cache.insert (c : Cache) (data : List Nat) : Cache :=
  let entries := c.entries ++ [data]
  let size := c.size + data.length
  if CACHE_MAX_COUNT < entries.length then
    ⟨size - (entries.headD []).length, entries.tail⟩
  else
    ⟨size, entries⟩

/-- The `while (count < nbytes)` loop of `Cache.get` (sconn.ts 330-348),
walking newest-to-oldest (the argument list is the reversed queue): when
the current frame covers the remaining need it is sliced to its tail and
the walk stops, otherwise the whole frame is prepended. -/
def Cache.getAux : List (List Nat) → Nat → List Nat
  | [], _ => []
  | v :: rest, need =>
    if need ≤ v.length then
      v.drop (v.length - need)
    else
      Cache.getAux rest (need - v.length) ++ v

/-- `Cache.get` (sconn.ts 321-359). -/
def Cache.get (c : Cache) (nbytes : Nat) : Option (List Nat) :=
  if c.size < nbytes then
    none
  else
    some (Cache.getAux c.entries.reverse nbytes)

/-- Inserting a sequence of frames into an empty cache. -/
def insertAll (frames : List (List Nat)) : Cache :=
  frames.foldl Cache.insert Cache.empty

/-- Total byte length of a list of frames. -/
def sumLen (l : List (List Nat)) : Nat := (l.map List.length).sum

theorem sumLen_nil : sumLen [] = 0 := rfl

theorem sumLen_cons (v : List Nat) (l : List (List Nat)) :
    sumLen (v :: l) = v.length + sumLen l := by simp [sumLen]

theorem sumLen_append (l₁ l₂ : List (List Nat)) :
    sumLen (l₁ ++ l₂) = sumLen l₁ + sumLen l₂ := by simp [sumLen]

theorem sumLen_reverse (l : List (List Nat)) : sumLen l.reverse = sumLen l := by
  simp [sumLen, List.sum_reverse]

theorem flatten_length_sumLen (l : List (List Nat)) :
    l.flatten.length = sumLen l := by simp [sumLen]

theorem getAux_eq (rev : List (List Nat)) :
    ∀ need, need ≤ sumLen rev →
      Cache.getAux rev need = rev.reverse.flatten.drop (sumLen rev - need) := by
  induction rev with
  | nil =>
    intro need h
    rw [sumLen_nil] at h
    simp [Cache.getAux, Nat.le_zero.mp h]
  | cons v rest ih =>
    intro need h
    have hA : rest.reverse.flatten.length = sumLen rest := by
      rw [flatten_length_sumLen, sumLen_reverse]
    have hflat : (v :: rest).reverse.flatten = rest.reverse.flatten ++ v := by
      simp
    rw [sumLen_cons] at h
    simp only [Cache.getAux]
    by_cases hc : need ≤ v.length
    · rw [if_pos hc, hflat]
      have hamt : sumLen (v :: rest) - need =
          rest.reverse.flatten.length + (v.length - need) := by
        rw [hA, sumLen_cons]; omega
      rw [hamt, List.drop_append]
    · rw [if_neg hc, hflat]
      rw [ih (need - v.length) (by omega)]
      have hle : sumLen (v :: rest) - need ≤ rest.reverse.flatten.length := by
        rw [hA, sumLen_cons]; omega
      rw [List.drop_append_of_le_length hle]
      have hvc : sumLen (v :: rest) = v.length + sumLen rest := sumLen_cons v rest
      congr 2
      omega

theorem insertAll_concat (fs : List (List Nat)) (f : List Nat) :
    insertAll (fs ++ [f]) = (insertAll fs).insert f := by
  simp [insertAll]

theorem Cache.insert_eq (c : Cache) (f : List Nat) :
    c.insert f =
      if CACHE_MAX_COUNT < c.entries.length + 1 then
        ⟨c.size + f.length - ((c.entries ++ [f]).headD []).length,
          (c.entries ++ [f]).tail⟩
      else
        ⟨c.size + f.length, c.entries ++ [f]⟩ := by
  unfold Cache.insert
  simp [List.length_append]

theorem insertAll_spec (fs : List (List Nat)) :
    (insertAll fs).entries = fs.drop (fs.length - CACHE_MAX_COUNT) ∧
      (insertAll fs).size = sumLen (insertAll fs).entries := by
  have hC : CACHE_MAX_COUNT = 100 := rfl
  induction fs using List.reverseRecOn with
  | nil => exact ⟨rfl, rfl⟩
  | append_singleton fs f ih =>
    obtain ⟨he, hs⟩ := ih
    have hel : (insertAll fs).entries.length =
        fs.length - (fs.length - CACHE_MAX_COUNT) := by
      rw [he, List.length_drop]
    have hlapp : (fs ++ [f]).length = fs.length + 1 := by simp
    rw [insertAll_concat, Cache.insert_eq]
    by_cases hover : CACHE_MAX_COUNT < (insertAll fs).entries.length + 1
    · rw [if_pos hover]
      have hfull : (insertAll fs).entries.length = CACHE_MAX_COUNT := by omega
      have hfs : CACHE_MAX_COUNT ≤ fs.length := by omega
      have hne : (insertAll fs).entries ≠ [] := by
        intro h0; rw [h0] at hfull; simp at hfull; omega
      obtain ⟨e0, erest, hE⟩ := List.exists_cons_of_ne_nil hne
      have htail : erest = fs.drop (fs.length - CACHE_MAX_COUNT + 1) := by
        have h1 := congrArg List.tail hE
        simp only [List.tail_cons] at h1
        rw [← h1, he, List.tail_drop]
      have he0 : ((insertAll fs).entries ++ [f]).headD [] = e0 := by rw [hE]; rfl
      have ht : ((insertAll fs).entries ++ [f]).tail = erest ++ [f] := by rw [hE]; rfl
      constructor
      · show ((insertAll fs).entries ++ [f]).tail =
          (fs ++ [f]).drop ((fs ++ [f]).length - CACHE_MAX_COUNT)
        rw [ht, htail]
        have hlen2 : (fs ++ [f]).length - CACHE_MAX_COUNT =
            fs.length - CACHE_MAX_COUNT + 1 := by rw [hlapp]; omega
        rw [hlen2, List.drop_append_of_le_length (by omega)]
      · show (insertAll fs).size + f.length -
            (((insertAll fs).entries ++ [f]).headD []).length =
          sumLen (((insertAll fs).entries ++ [f]).tail)
        rw [he0, ht, hs, hE, sumLen_cons, sumLen_append]
        have hsf : sumLen [f] = f.length := by simp [sumLen]
        rw [hsf]; omega
    · rw [if_neg hover]
      constructor
      · show (insertAll fs).entries ++ [f] =
            (fs ++ [f]).drop ((fs ++ [f]).length - CACHE_MAX_COUNT)
        have hz : (fs ++ [f]).length - CACHE_MAX_COUNT = 0 := by rw [hlapp]; omega
        have hz2 : fs.length - CACHE_MAX_COUNT = 0 := by omega
        rw [hz, List.drop_zero, he, hz2, List.drop_zero]
      · show (insertAll fs).size + f.length =
            sumLen ((insertAll fs).entries ++ [f])
        rw [hs, sumLen_append]
        have hsf : sumLen [f] = f.length := by simp [sumLen]
        rw [hsf]

/-- C4: the replay cache retains at most the `CACHE_MAX_COUNT = 100` most
recently inserted frames, evicting the oldest on overflow; for every `k`
not larger than the total cached byte length, `get k` returns exactly the
last `k` bytes of the concatenation of the inserted frames in insertion
order, and `get k` fails with `null` whenever `k` exceeds the total cached
length. -/
theorem c4_replay_cache (frames : List (List Nat)) (k : Nat) :
    (insertAll frames).entries.length ≤ CACHE_MAX_COUNT ∧
    (insertAll frames).entries = frames.drop (frames.length - CACHE_MAX_COUNT) ∧
    (k ≤ (insertAll frames).size →
      (insertAll frames).get k =
        some (frames.flatten.drop (frames.flatten.length - k))) ∧
    ((insertAll frames).size < k → (insertAll frames).get k = none) := by
  obtain ⟨he, hs⟩ := insertAll_spec frames
  refine ⟨?_, he, ?_, ?_⟩
  · rw [he, List.length_drop]; omega
  · intro hk
    unfold Cache.get
    rw [if_neg (by omega)]
    rw [getAux_eq _ k (by rw [sumLen_reverse]; omega)]
    rw [List.reverse_reverse, sumLen_reverse]
    congr 1
    have hkle : k ≤ sumLen (insertAll frames).entries := by omega
    have hff : frames.flatten =
        (frames.take (frames.length - CACHE_MAX_COUNT)).flatten ++
          (insertAll frames).entries.flatten := by
      conv_lhs => rw [show frames = frames.take (frames.length - CACHE_MAX_COUNT) ++
        (insertAll frames).entries from by rw [he, List.take_append_drop]]
      rw [List.flatten_append]
    rw [hff, List.length_append]
    rw [show (frames.take (frames.length - CACHE_MAX_COUNT)).flatten.length +
        (insertAll frames).entries.flatten.length - k =
        (frames.take (frames.length - CACHE_MAX_COUNT)).flatten.length +
        ((insertAll frames).entries.flatten.length - k) from by
      rw [flatten_length_sumLen (insertAll frames).entries]; omega]
    rw [List.drop_append]
    rw [flatten_length_sumLen]
  · intro hk
    unfold Cache.get
    rw [if_pos (by omega)]

/-- C4 witness: a concrete run of the theorem. -/
theorem c4_replay_cache_witness :
    (insertAll [[1, 2], [3, 4, 5]]).get 3 = some [3, 4, 5] ∧
    (insertAll [[1, 2], [3, 4, 5]]).get 6 = none := by
  constructor
  · have h := (c4_replay_cache [[1, 2], [3, 4, 5]] 3).2.2.1 (by decide)
    simpa using h
  · have h := (c4_replay_cache [[1, 2], [3, 4, 5]] 6).2.2.2 (by decide)
    simpa using h

/-! ## The frame buffer (buffer.ts, `Buffer` over `Uint8Array`)

`popMsg(headerLen, headerEndian)` (buffer.ts 179-218) first merges all
buffered chunks (`popAll`), returns `null` putting the bytes back when
fewer than `headerLen` bytes are present or when fewer than
`headerLen + sz` bytes are present (`sz` decoded from the header), and
otherwise detaches the `sz` payload bytes, pushing the remainder back.
JavaScript's 32-bit shifts in the size decoding coincide with exact
arithmetic for the 2-byte headers every caller uses. -/

structure JSBuffer where
  data : List (List Nat)
deriving Repr, DecidableEq

/-- `Buffer.push`. -/
def JSBuffer.push (b : JSBuffer) (arr : List Nat) : JSBuffer :=
  ⟨b.data ++ [arr]⟩

/-- Header decoding of `popMsg`: big endian folds `sz = (sz << 8) + header[i]`,
little endian sums `header[i] << (i * 8)`. -/
def decodeSz (big : Bool) (hdr : List Nat) : Nat :=
  if big then
    hdr.foldl (fun s b => s * 256 + b) 0
  else
    hdr.foldr (fun b s => b + s * 256) 0

/-- `Buffer.popMsg(headerLen, headerEndian)` (buffer.ts 179-218). -/
def JSBuffer.popMsg (b : JSBuffer) (len : Nat) (big : Bool) :
    Option (List Nat) × JSBuffer :=
  let current := b.data.flatten
  if current.length < len then
    (none, ⟨if 0 < current.length then [current] else []⟩)
  else
    let sz := decodeSz big (current.take len)
    if current.length < len + sz then
      (none, ⟨[current]⟩)
    else
      let message := (current.drop len).take sz
      let remaining := current.drop (len + sz)
      (some message, ⟨if 0 < remaining.length then [remaining] else []⟩)

/-- The little-endian byte writing loop of `packData` (sconn.ts 385-388):
`header[i] = (len >> (i * 8)) & 0xFF`. -/
def leBytes (n : Nat) : Nat → List Nat
  | 0 => []
  | k + 1 => n % 256 :: leBytes (n / 256) k

/-- `packData` (sconn.ts 374-397): length header (big- or little-endian)
followed by the payload.  The big-endian loop writes the low byte of
`len >> (i * 8)` at index `headerLen - 1 - i`, i.e. the low `headerLen`
bytes of the length in big-endian order, which is `bigIntToBytes`. -/
def packData (data : List Nat) (headerLen : Nat) (big : Bool) : List Nat :=
  (if big then bigIntToBytes data.length headerLen else leBytes data.length headerLen) ++ data

def SPROTO_TARRAY : Nat := 0x80

mutual
inductive SType where
  | mk : String → Int → List SField → SType
inductive SField where
  | mk : Nat → Nat → String → Option SType → Int → Nat → SField
end

/-- Type name (`st.name`). -/
def SType.sname : SType → String
  | .mk n _ _ => n

/-- `st.base`: first tag if the tags are contiguous, `-1` otherwise. -/
def SType.base : SType → Int
  | .mk _ b _ => b

/-- The field list `st.f`. -/
def SType.fields : SType → List SField
  | .mk _ _ f => f

/-- `st.n`: the number of fields. -/
def SType.n (st : SType) : Nat := st.fields.length

def SField.tag : SField → Nat
  | .mk t _ _ _ _ _ => t

/-- `f.type`, including the `SPROTO_TARRAY` bit. -/
def SField.ftype : SField → Nat
  | .mk _ ty _ _ _ _ => ty

def SField.fname : SField → String
  | .mk _ _ nm _ _ _ => nm

/-- `f.st`: the subtype of a struct field. -/
def SField.sub : SField → Option SType
  | .mk _ _ _ s _ _ => s

/-- `f.key` (map key tag, `-1` when absent). -/
def SField.key : SField → Int
  | .mk _ _ _ _ k _ => k

/-- `f.extra` (decimal scale for integers, binary flag for strings). -/
def SField.extra : SField → Nat
  | .mk _ _ _ _ _ e => e

/-- Result of `findtag` (sproto.ts 627-653).  `undef` is the JavaScript
`undefined` produced by `st.f![tag]` when `tag - st.base` equals `st.n`
exactly: the guard reads `tag > st.n` where the upstream C reads
`tag >= st->n`, so the one-past-the-end index slips through, and the
caller's strict `f === null` test does not catch `undefined`. -/
inductive FindRes where
  | fld (f : SField)
  | nullRes
  | undef

def defaultSField : SField := .mk 0 0 "" none (-1) 0

/-- The binary-search branch of `findtag` (sproto.ts 637-652), with fuel
for the `while (begin < end)` loop. -/
def findtagBS : Nat → List SField → Nat → Nat → Nat → FindRes
  | 0, _, _, _, _ => .nullRes
  | fuel + 1, fields, b, e, tag =>
    if b < e then
      let mid := (b + e) / 2
      let f := fields.getD mid defaultSField
      if f.tag = tag then .fld f
      else if f.tag < tag then findtagBS fuel fields (mid + 1) e tag
      else findtagBS fuel fields b mid tag
    else .nullRes

/-- `findtag` (sproto.ts 627-653). -/
def findtag (st : SType) (tag : Nat) : FindRes :=
  if 0 ≤ st.base then
    let t : Int := (tag : Int) - st.base
    if t < 0 ∨ t > (st.n : Int) then .nullRes
    else
      match st.fields.get? t.toNat with
      | some f => .fld f
      | none => .undef
  else
    findtagBS (st.n + 1) st.fields 0 st.n tag

/-- A decoded JavaScript value. -/
inductive JsVal where
  | num (v : Int)
  | scaled (v : Int) (extra : Nat)
  | bool (b : Bool)
  | nullv
  | strv (bytes : List Nat) (binary : Bool)
  | dbl (bits : List Nat)
  | obj (fields : List (String × JsVal))
  | arrv (elems : List JsVal)

/-- Decoding failure: `fail` is the `-1` return value (`sp.decode` turns
it into `null`); `crash` is the JavaScript `TypeError` thrown when the
driver dereferences the `undefined` field returned by `findtag` for a
wire tag one past the contiguous field range. -/
inductive DErr where
  | fail
  | crash
deriving DecidableEq, Repr

/-- `utils.toWord`: two little-endian bytes (missing bytes read as 0, as
`undefined & 0xff` does). -/
def toWord (s : List Nat) : Nat := s.getD 0 0 + s.getD 1 0 * 256

/-- `utils.toDword`: four little-endian bytes. -/
def toDword (s : List Nat) : Nat :=
  s.getD 0 0 + s.getD 1 0 * 256 + s.getD 2 0 * 65536 + s.getD 3 0 * 16777216

/-- `utils.expand64` on a `toDword` result: JavaScript's 32-bit `&`
makes this sign extension of the 32-bit value. -/
def expand64 (v : Nat) : Int :=
  if 2 ^ 31 ≤ v then (v : Int) - 2 ^ 32 else (v : Int)

/-- `utils.hiLowUint64`: `(hi & 0xFFFFFFFF)` is `ToInt32(hi)`, so the
64-bit value is sign extended. -/
def hiLowUint64 (low hi : Nat) : Int :=
  (if 2 ^ 31 ≤ hi then (hi : Int) - 2 ^ 32 else (hi : Int)) * 2 ^ 32 + low

/-- JavaScript object field assignment `result[tagname] = value`. -/
def setKey (l : List (String × JsVal)) (k : String) (v : JsVal) : List (String × JsVal) :=
  if l.any (fun p => p.1 = k) then
    l.map (fun p => if p.1 = k then (k, v) else p)
  else
    l ++ [(k, v)]

/-- The decode callback's integer conversion: `extra` scales by a float
division, kept symbolic. -/
def decodeIntVal (f : SField) (v : Int) : JsVal :=
  if f.extra ≠ 0 then .scaled v f.extra else .num v

/-- The decode callback's boolean conversion (1 is `true`, 0 is `false`,
anything else `null`). -/
def boolVal (b : Nat) : JsVal :=
  if b = 1 then .bool true else if b = 0 then .bool false else .nullv

/-- The element loop of `decode_array_object` (sproto.ts 961-988), fuel
for `while (sz > 0)` (each iteration consumes at least 4 of `sz`). -/
def decodeArrObj
    (subDecode : SType → List Nat → Nat → Except DErr (List (String × JsVal) × Nat))
    (f : SField) : Nat → List Nat → Nat → Except DErr (List JsVal)
  | 0, _, _ => .error .fail
  | fuel + 1, stream, sz =>
    if sz = 0 then .ok []
    else if sz < 4 then .error .fail
    else
      let hsz := toDword stream
      let stream1 := stream.drop 4
      let sz1 := sz - 4
      if sz1 < hsz then .error .fail
      else
        let elemE : Except DErr JsVal :=
          if f.ftype &&& 127 = 4 then
            match f.sub with
            | none => .error .crash
            | some sub =>
              match subDecode sub stream1 hsz with
              | .error e => .error e
              | .ok (res, consumed) =>
                if consumed = hsz then .ok (.obj res) else .error .fail
          else
            .ok (.strv (stream1.take hsz) (f.extra != 0))
        match elemE with
        | .error e => .error e
        | .ok elem =>
          match decodeArrObj subDecode f fuel (stream1.drop hsz) (sz1 - hsz) with
          | .error e => .error e
          | .ok rest => .ok (elem :: rest)

/-- `decode_array` (sproto.ts 994-1056). -/
def decodeArray
    (subDecode : SType → List Nat → Nat → Except DErr (List (String × JsVal) × Nat))
    (f : SField) (currentdata : List Nat) : Except DErr JsVal :=
  let sz := toDword currentdata
  if sz = 0 then .ok (.arrv [])
  else
    let stream := currentdata.drop 4
    match f.ftype &&& 127 with
    | 0 =>
      let len := stream.getD 0 0
      let stream1 := stream.drop 1
      let remaining := sz - 1
      if len = 4 then
        if remaining % 4 ≠ 0 then .error .fail
        else .ok (.arrv ((List.range (remaining / 4)).map (fun i =>
          decodeIntVal f (expand64 (toDword (stream1.drop (i * 4)))))))
      else if len = 8 then
        if remaining % 8 ≠ 0 then .error .fail
        else .ok (.arrv ((List.range (remaining / 8)).map (fun i =>
          decodeIntVal f (hiLowUint64 (toDword (stream1.drop (i * 8)))
            (toDword (stream1.drop (i * 8 + 4)))))))
      else .error .fail
    | 1 =>
      .ok (.arrv ((List.range sz).map (fun i => boolVal (stream.getD i 0))))
    | 2 =>
      match decodeArrObj subDecode f (sz + 1) stream sz with
      | .error e => .error e
      | .ok elems => .ok (.arrv elems)
    | 4 =>
      match decodeArrObj subDecode f (sz + 1) stream sz with
      | .error e => .error e
      | .ok elems => .ok (.arrv elems)
    | _ => .error .fail

/-- The per-field value decoding of the `sproto_decode` driver
(sproto.ts 1551-1612): a data-region entry when the slot value was 0,
an inline value otherwise. -/
def processField
    (subDecode : SType → List Nat → Nat → Except DErr (List (String × JsVal) × Nat))
    (f : SField) (value : Int) (currentdata : List Nat) : Except DErr JsVal :=
  if value < 0 then
    if f.ftype &&& SPROTO_TARRAY ≠ 0 then
      decodeArray subDecode f currentdata
    else
      match f.ftype with
      | 3 =>
        let sz := toDword currentdata
        if sz = 8 then .ok (.dbl ((currentdata.drop 4).take 8)) else .error .fail
      | 0 =>
        let sz := toDword currentdata
        if sz = 4 then
          .ok (decodeIntVal f (expand64 (toDword (currentdata.drop 4))))
        else if sz = 8 then
          .ok (decodeIntVal f (hiLowUint64 (toDword (currentdata.drop 4))
            (toDword (currentdata.drop 8))))
        else .error .fail
      | 2 =>
        let sz := toDword currentdata
        .ok (.strv ((currentdata.drop 4).take sz) (f.extra != 0))
      | 4 =>
        let sz := toDword currentdata
        match f.sub with
        | none => .error .crash
        | some sub =>
          match subDecode sub (currentdata.drop 4) sz with
          | .error e => .error e
          | .ok (res, consumed) =>
            if consumed = sz then .ok (.obj res) else .error .fail
      | _ => .error .fail
  else
    if f.ftype ≠ 0 ∧ f.ftype ≠ 1 then .error .fail
    else if f.ftype = 0 then .ok (decodeIntVal f value)
    else .ok (boolVal value.toNat)

/-- The field-slot loop of `sproto_decode` (sproto.ts 1511-1613):
arguments are the remaining slot words, the running tag, the data
region, the remaining size and the result object. -/
def decodeLoop
    (subDecode : SType → List Nat → Nat → Except DErr (List (String × JsVal) × Nat))
    (st : SType) :
    List Nat → Int → List Nat → Nat → List (String × JsVal) →
      Except DErr (List (String × JsVal) × Nat)
  | [], _, _, size, res => .ok (res, size)
  | w :: ws, tag, datastream, size, res =>
    let tag1 := tag + 1
    if w % 2 = 1 then
      decodeLoop subDecode st ws (tag1 + ((w / 2 : Nat) : Int)) datastream size res
    else
      let value : Int := ((w / 2 : Nat) : Int) - 1
      let currentdata := datastream
      let step : Except DErr (List Nat × Nat) :=
        if value < 0 then
          if size < 4 then .error .fail
          else
            let sz := toDword datastream
            if size < sz + 4 then .error .fail
            else .ok (datastream.drop (sz + 4), size - (sz + 4))
        else .ok (datastream, size)
      match step with
      | .error e => .error e
      | .ok (datastream1, size1) =>
        match findtag st tag1.toNat with
        | .nullRes => decodeLoop subDecode st ws tag1 datastream1 size1 res
        | .undef => .error .crash
        | .fld f =>
          match processField subDecode f value currentdata with
          | .error e => .error e
          | .ok v =>
            decodeLoop subDecode st ws tag1 datastream1 size1 (setKey res f.fname v)

/-- `sproto_decode` (sproto.ts 1496-1615): returns the result object and
the number of bytes consumed (`total - size`).  The fuel bounds struct
nesting (each nested record is strictly smaller, so `size + 1`
suffices). -/
def sproto_decode : Nat → SType → List Nat → Nat → Except DErr (List (String × JsVal) × Nat)
  | 0, _, _, _ => .error .fail
  | fuel + 1, st, data, size =>
    if size < 2 then .error .fail
    else
      let fn := toWord data
      let stream := data.drop 2
      let size1 := size - 2
      if size1 < fn * 2 then .error .fail
      else
        let datastream := stream.drop (fn * 2)
        let size2 := size1 - fn * 2
        let slots := (List.range fn).map (fun i => toWord (stream.drop (i * 2)))
        match decodeLoop (fun st2 d2 s2 => sproto_decode fuel st2 d2 s2)
            st slots (-1) datastream size2 [] with
        | .error e => .error e
        | .ok (res, sizeEnd) => .ok (res, size - sizeEnd)

/-- `sp.decode` (sproto.ts 1826-1849): `null` on `-1`; a thrown
`TypeError` propagates. -/
def sp_decode (st : SType) (inbuf : List Nat) : Except DErr (List (String × JsVal)) :=
  match sproto_decode (inbuf.length + 1) st inbuf inbuf.length with
  | .error e => .error e
  | .ok (res, _) => .ok res

/-- `value & 0xff, (value >> 8) & 0xff` (the 2-byte little-endian words
of the encoder). -/
def leWord (w : Nat) : List Nat := [w % 256, w / 256 % 256]

/-- The 4 little-endian bytes written by `fill_size` / `encode_integer`
(sproto.ts 655-669). -/
def leDword (n : Nat) : List Nat :=
  [n % 256, n / 256 % 256, n / 65536 % 256, n / 16777216 % 256]

/-- The 8 little-endian bytes written by `encode_uint64` (sproto.ts
671-681): byte `j` is `uint64Rshift(v, 8 * j) & 0xff`, i.e. the low byte
of the floor division (two's complement for negative values). -/
def encodeUint64Bytes (v : Int) : List Nat :=
  (List.range 8).map (fun j => ((Int.fdiv v (2 ^ (8 * j))).emod 256).toNat)

/-- JavaScript property lookup `self.indata[tagname]`. -/
def lookupVal (l : List (String × JsVal)) (k : String) : Option JsVal :=
  (l.find? (fun p => p.1 = k)).map (fun p => p.2)

/-- The encode callback and data writing for one non-array scalar field
(sproto.ts driver 1308-1345 and callback 1426-1493): returns the field
slot value and the data-region bytes (empty for an inlined value).
Doubles and non-matching value shapes are outside the fragment. -/
def encodeFieldScalar
    (subEncode : SType → List (String × JsVal) → Except Unit (List Nat))
    (f : SField) (target : JsVal) : Except Unit (Nat × List Nat) :=
  match f.ftype with
  | 0 =>
    match target with
    | .num n =>
      let v : Int := if 0 < f.extra then n * f.extra else n
      let vh := Int.fdiv v (2 ^ 31)
      if vh = 0 ∨ vh = -1 then
        -- sz 4: args.value = v >>> 0 (ToUint32)
        let value32 := (v.emod (2 ^ 32)).toNat
        if value32 < 0x7fff then .ok ((value32 + 1) * 2, [])
        else .ok (0, leDword 4 ++ leDword value32)
      else
        .ok (0, leDword 8 ++ encodeUint64Bytes v)
    | _ => .error ()
  | 1 =>
    let value := match target with
      | .bool true => 1
      | .bool false => 0
      | _ => 0
    .ok ((value + 1) * 2, [])
  | 2 =>
    match target with
    | .strv bytes _ => .ok (0, leDword bytes.length ++ bytes)
    | _ => .error ()
  | 4 =>
    match f.sub, target with
    | some sub, .obj flds =>
      match subEncode sub flds with
      | .error e => .error e
      | .ok bytes => .ok (0, leDword bytes.length ++ bytes)
    | _, _ => .error ()
  | _ => .error ()

/-- The field loop of `sproto_encode` (sproto.ts 1286-1372): running
slot count `index`, previous emitted tag `lasttag`, the emitted slot
words and the data region.  The in-buffer compaction of the source
(1379-1386) only removes the unused reserved slot space, so the final
buffer is `field count ++ slots ++ data`. -/
def encodeLoop
    (subEncode : SType → List (String × JsVal) → Except Unit (List Nat)) :
    List SField → List (String × JsVal) → Nat → Int → List Nat → List Nat →
      Except Unit (Nat × List Nat × List Nat)
  | [], _, index, _, slots, dataReg => .ok (index, slots, dataReg)
  | f :: fs, indata, index, lasttag, slots, dataReg =>
    if f.ftype &&& SPROTO_TARRAY ≠ 0 then
      .error ()  -- encode_array: outside the fragment (see section note)
    else
      match lookupVal indata f.fname with
      | none =>
        -- SPROTO_CB_NIL: absent field, no slot
        encodeLoop subEncode fs indata index lasttag slots dataReg
      | some .nullv =>
        encodeLoop subEncode fs indata index lasttag slots dataReg
      | some target =>
        match encodeFieldScalar subEncode f target with
        | .error e => .error e
        | .ok (value, blob) =>
          let gap : Int := (f.tag : Int) - lasttag - 1
          if 0 < gap then
            let skipV := ((gap - 1) * 2 + 1).toNat
            if 0xffff < skipV then .error ()
            else
              encodeLoop subEncode fs indata (index + 2) f.tag
                (slots ++ leWord skipV ++ leWord value) (dataReg ++ blob)
          else
            encodeLoop subEncode fs indata (index + 1) f.tag
              (slots ++ leWord value) (dataReg ++ blob)

/-- `sproto_encode` (sproto.ts 1275-1389).  The fuel is the remaining
recursion depth: the callback refuses `deep >= ENCODE_DEEPLEVEL = 64`
with an error. -/
def sproto_encode : Nat → SType → List (String × JsVal) → Except Unit (List Nat)
  | 0, _, _ => .error ()
  | fuel + 1, st, indata =>
    match encodeLoop (fun st2 v2 => sproto_encode fuel st2 v2)
        st.fields indata 0 (-1) [] [] with
    | .error e => .error e
    | .ok (index, slots, dataReg) => .ok (leWord index ++ slots ++ dataReg)

/-- `sp.encode` (sproto.ts 1794-1824): `null` on error, the buffer
otherwise. -/
def sp_encode (st : SType) (indata : List (String × JsVal)) : Except Unit (List Nat) :=
  sproto_encode 64 st indata

/-- The schema type `T { x 0 : integer }` of claims C6 and C7:
one integer field `x` at tag 0 (`base = 0`, contiguous). -/
def T_x : SType := .mk "T" 0 [.mk 0 0 "x" none (-1) 0]

/-- C6 counterexample: `encode(T, ⦃x: 7⦄)` does not yield the four bytes
`02 00 10 00` claimed - the field-count word is 1, not 2. -/
theorem c6_counterexample :
    sp_encode T_x [("x", JsVal.num 7)] ≠ .ok [2, 0, 16, 0] := by
  intro h
  have h1 : sp_encode T_x [("x", JsVal.num 7)] = .ok [1, 0, 16, 0] := rfl
  rw [h1] at h
  exact absurd (Except.ok.inj h) (by decide)

/-- C6 amended: `encode(T, ⦃x: 7⦄)` yields `01 00 10 00` (field count 1,
inline slot `(7+1)*2 = 16`), and decoding those bytes gives back
`⦃x: 7⦄`. -/
theorem c6_encode_decode :
    sp_encode T_x [("x", JsVal.num 7)] = .ok [1, 0, 16, 0] ∧
    sp_decode T_x [1, 0, 16, 0] = .ok [("x", JsVal.num 7)] :=
  ⟨rfl, rfl⟩

/-- C7: decoding a well-formed record with an undeclared wire tag only
skips it when the tag misses the contiguous range by more than one: for
`T { x 0 : integer }`, the record `02 00 10 00 0C 00` carries unknown
tag 1 (one past the field range) and `findtag`'s off-by-one guard
(`tag > st.n` instead of `>=`) returns the undefined element, which the
driver dereferences - a `TypeError`, not a skip; unknown tag 2 in
`03 00 10 00 01 00 0C 00` is skipped and decoding succeeds on `x`. -/
theorem c7_findtag_off_by_one :
    sp_decode T_x [2, 0, 16, 0, 12, 0] = .error .crash ∧
    sp_decode T_x [3, 0, 16, 0, 1, 0, 12, 0] = .ok [("x", JsVal.num 7)] ∧
    findtag T_x 1 = .undef :=
  ⟨rfl, rfl, rfl⟩

/-! ## Handshake text helpers

`TextDecoder` + `String.split('\n')` + `parseInt(..) || 0` on the
handshake frames, modelled on byte lists: splitting at byte 10 and
parsing a maximal leading run of ASCII digits (`parseInt` of a string
not starting with a digit is `NaN`, turned into 0 by `|| 0`; signs,
whitespace and hex forms do not occur in the protocol frames). -/

def splitNL : List Nat → List (List Nat)
  | [] => [[]]
  | b :: t =>
    if b = 10 then
      [] :: splitNL t
    else
      match splitNL t with
      | l :: ls => (b :: l) :: ls
      | [] => [[b]]

def parseDigits : List Nat → Nat → Nat
  | [], acc => acc
  | c :: t, acc =>
    if 48 ≤ c ∧ c ≤ 57 then parseDigits t (acc * 10 + (c - 48)) else acc

def parseIntOr0 (bs : List Nat) : Nat := parseDigits bs 0

/-- Sextet value of a base64 character (`atob`); `=` and foreign
characters map to 0 here (`atob` would throw on malformed input, which
the handshake does not produce). -/
def b64Val (c : Nat) : Nat :=
  if 65 ≤ c ∧ c ≤ 90 then c - 65
  else if 97 ≤ c ∧ c ≤ 122 then c - 71
  else if 48 ≤ c ∧ c ≤ 57 then c + 4
  else if c = 43 then 62
  else if c = 47 then 63
  else 0

/-- `CryptUtils.base64Decode` (sconn.ts 99-102, via `atob`). -/
def base64DecodeAux : List Nat → List Nat
  | a :: b :: c :: d :: rest =>
    ((b64Val a) * 4 + (b64Val b) / 16) ::
      (((b64Val b) % 16) * 16 + (b64Val c) / 4) ::
      (((b64Val c) % 4) * 64 + b64Val d) :: base64DecodeAux rest
  | [a, b, c] =>
    [(b64Val a) * 4 + (b64Val b) / 16, ((b64Val b) % 16) * 16 + (b64Val c) / 4]
  | [a, b] => [(b64Val a) * 4 + (b64Val b) / 16]
  | _ => []

def base64Decode (s : List Nat) : List Nat :=
  base64DecodeAux (s.filter (fun c => c != 61))

/-! ## The WebSocket transport (conn.ts, `ExtendedWSConnection`)

State `connect`/`forward`/`close`; `vRecvBuf` holds one entry per
delivered websocket message (`onmessage` pushes `event.data`).  The
`update` of the source checks `socketError` only after the three state
branches, which cover every state, so that check is unreachable; the
dial deadline is not set by any caller modelled here. -/

inductive WName where
  | connect
  | forward
  | closeW
deriving DecidableEq, Repr

structure WSConn where
  vState : WName
  recvQ : List (List Nat)
  sendBuffer : List (List Nat)
  sentWS : List (List Nat)
  socketError : Option String
deriving DecidableEq, Repr

/-- `ExtendedWSConnection.send` (conn.ts 256-266): forward state sends on
the websocket (logged in `sentWS`), other states buffer. -/
def WSConn.send (w : WSConn) (data : List Nat) : WSConn :=
  if w.vState = .forward then
    { w with sentWS := w.sentWS ++ [data] }
  else
    { w with sendBuffer := w.sendBuffer ++ [data] }

/-- `ExtendedWSConnection.popMsg` (conn.ts 271-280): `vRecvBuf.popMsg`
with the given header parameters (2, big for every caller). -/
def WSConn.popMsgW (w : WSConn) : Option (List Nat) × WSConn :=
  let r := JSBuffer.popMsg ⟨w.recvQ⟩ 2 true
  (r.1, { w with recvQ := r.2.data })

/-- `ExtendedWSConnection.recv` (conn.ts 285-292): `popAll` the receive
buffer into one blob (a `Uint8Array` is truthy even when empty, so the
blob is always delivered and the count is 1). -/
def WSConn.recvW (w : WSConn) : List Nat × WSConn :=
  (w.recvQ.flatten, { w with recvQ := [] })

/-- `ExtendedWSConnection.update` (conn.ts 297-348): in forward state
flush the send buffer and succeed; in connect and close states fail. -/
def WSConn.update (w : WSConn) : WSConn × Bool :=
  match w.vState with
  | .forward =>
    ({ w with sendBuffer := [], sentWS := w.sentWS ++ [w.sendBuffer.flatten] }, true)
  | .connect => (w, false)
  | .closeW => (w, false)

/-- `WSConnection.close` (conn.ts 176-180). -/
def WSConn.close (w : WSConn) : WSConn :=
  { w with vState := .closeW }

/-! ## The SConn session state machine (sconn.ts 431-868)

The per-state `request` actions (`newconnect.request`,
`reconnect.request`) fire on `switchState` from `connect()` and
`reconnect()`; no state reachable through a dispatch has a `request`,
so the dispatch transitions below never trigger one.  The pending
reconnect callback `vReconnectCb` is modelled as a flag plus an
explicit invocation record in the step output. -/

inductive SName where
  | newconnect
  | forward
  | reconnect
  | reconnect_error
  | reconnect_match_error
  | reconnect_cache_error
  | close
deriving DecidableEq, Repr

structure SConnSt where
  state : SName
  sock : WSConn
  vId : Nat
  vSendNumber : Nat
  vRecvNumber : Nat
  vReconnectIndex : Nat
  vCache : Cache
  vSendBuf : List (List Nat)
  recvBuf : JSBuffer
  reconnectCb : Bool
  vSecret : List Nat
  vPrivateKey : Option (List Nat)
deriving DecidableEq, Repr

/-- A dispatch step: the new session state and the argument of the
reconnect-callback invocation, when one happened. -/
structure StepOut where
  s : SConnSt
  cb : Option Bool
deriving DecidableEq, Repr

/-- `states.forward.send` (sconn.ts 632-639): transmit, count, cache. -/
def forwardSend (s : SConnSt) (data : List Nat) : SConnSt :=
  { s with
    sock := s.sock.send data,
    vSendNumber := s.vSendNumber + data.length,
    vCache := s.vCache.insert data }

/-- `states.newconnect.dispatch` (sconn.ts 461-496): pop one handshake
frame, parse the session id and the server public key, derive the
secret, switch to forward and flush the pre-handshake send buffer
through the forward send. -/
def newconnectDispatch (s : SConnSt) : SConnSt :=
  let r := s.sock.popMsgW
  let s1 := { s with sock := r.2 }
  match r.1 with
  | none => s1
  | some data =>
    let lines := splitNL data
    let id := parseIntOr0 (lines.headD [])
    let serverKey := (lines.get? 1).getD []
    let s2 := { s1 with vId := id }
    let s3 :=
      if serverKey ≠ [] ∧ s2.vPrivateKey.isSome then
        { s2 with vSecret := dhSecret (base64Decode serverKey) (s2.vPrivateKey.getD []) }
      else s2
    let s4 := { s3 with state := .forward }
    let s5 := s4.vSendBuf.foldl forwardSend s4
    { s5 with vSendBuf := [] }

/-- `states.reconnect.dispatch` on a popped reply frame
(sconn.ts 554-598). -/
def reconnectDispatchFrame (s : SConnSt) (data : List Nat) : StepOut :=
  let lines := splitNL data
  let recv := parseIntOr0 (lines.headD [])
  let msg : Option (List Nat) := lines.get? 1
  let sendNumber := s.vSendNumber
  let cb := s.reconnectCb
  let s1 := { s with reconnectCb := false }
  if msg ≠ some [50, 48, 48] then
    ⟨{ s1 with state := .reconnect_error }, if cb then some false else none⟩
  else if sendNumber < recv then
    ⟨{ s1 with state := .reconnect_match_error }, if cb then some false else none⟩
  else if recv < sendNumber then
    let nbytes := sendNumber - recv
    match s1.vCache.get nbytes with
    | none =>
      ⟨{ s1 with state := .reconnect_cache_error }, if cb then some false else none⟩
    | some resendData =>
      ⟨{ s1 with sock := s1.sock.send resendData, state := .forward },
        if cb then some true else none⟩
  else
    ⟨{ s1 with state := .forward }, if cb then some true else none⟩

/-- `states.reconnect.dispatch` (sconn.ts 550-599). -/
def reconnectDispatch (s : SConnSt) : StepOut :=
  let r := s.sock.popMsgW
  let s1 := { s with sock := r.2 }
  match r.1 with
  | none => ⟨s1, none⟩
  | some data => reconnectDispatchFrame s1 data

/-- `states.forward.dispatch` (sconn.ts 620-630): drain the transport
receive buffer into the session receive buffer, counting the bytes. -/
def forwardDispatch (s : SConnSt) : SConnSt :=
  let r := s.sock.recvW
  { s with
    sock := r.2,
    vRecvNumber := s.vRecvNumber + r.1.length,
    recvBuf := s.recvBuf.push r.1 }

/-- Dispatch of the current state; the three error states and `close`
define no dispatch. -/
def dispatchState (s : SConnSt) : StepOut :=
  match s.state with
  | .newconnect => ⟨newconnectDispatch s, none⟩
  | .reconnect => reconnectDispatch s
  | .forward => ⟨forwardDispatch s, none⟩
  | _ => ⟨s, none⟩

/-- `SConn.update` (sconn.ts 790-818): pump the socket, and dispatch the
current state exactly when the socket update succeeded.  The returned
flag is `updateResult.success`; the `dispose` result shaping does not
touch the session state. -/
def SConn.update (s : SConnSt) : StepOut × Bool :=
  let r := s.sock.update
  let s1 := { s with sock := r.1 }
  if r.2 then (dispatchState s1, true) else (⟨s1, none⟩, false)

/-- `SConn.close` (sconn.ts 863-867). -/
def SConn.close (s : SConnSt) : SConnSt :=
  { s with sock := s.sock.close, recvBuf := ⟨[]⟩, state := .close }

/-- On a well-formed cache (size = total byte count of the entries),
`get k` for `k ≤ size` yields exactly the last `k` cached bytes. -/
theorem Cache.get_eq_of_wf (c : Cache) (k : Nat)
    (hwf : c.size = sumLen c.entries) (hk : k ≤ c.size) :
    c.get k = some (c.entries.flatten.drop (sumLen c.entries - k)) := by
  unfold Cache.get
  rw [if_neg (by omega)]
  rw [getAux_eq _ k (by rw [sumLen_reverse]; omega)]
  rw [List.reverse_reverse, sumLen_reverse]

/-- C3: the reconnect dispatcher, on a popped handshake reply `data`,
informs the pending reconnect callback and transitions as the claim
states: a reply whose second line is not "200" enters `reconnect_error`
(callback false); a reported `recv` larger than `vSendNumber` enters
`reconnect_match_error` (callback false); a `recv` smaller than
`vSendNumber` with fewer than `vSendNumber - recv` cached bytes enters
`reconnect_cache_error` (callback false); with enough cached bytes it
retransmits exactly the last `vSendNumber - recv` cached bytes on the
socket and enters `forward` (callback true); `recv = vSendNumber` enters
`forward` (callback true) with nothing retransmitted.  `vSendNumber` is
left unchanged in the success cases. -/
theorem c3_reconnect_dispatch (s : SConnSt) (data : List Nat)
    (recv : Nat) (code : Option (List Nat))
    (hcb : s.reconnectCb = true)
    (hsock : s.sock.vState = WName.forward)
    (hwf : s.vCache.size = sumLen s.vCache.entries)
    (hrecv : parseIntOr0 ((splitNL data).headD []) = recv)
    (hcode : (splitNL data).get? 1 = code) :
    (code ≠ some [50, 48, 48] →
      (reconnectDispatchFrame s data).s.state = SName.reconnect_error ∧
      (reconnectDispatchFrame s data).cb = some false) ∧
    (code = some [50, 48, 48] → s.vSendNumber < recv →
      (reconnectDispatchFrame s data).s.state = SName.reconnect_match_error ∧
      (reconnectDispatchFrame s data).cb = some false) ∧
    (code = some [50, 48, 48] → recv < s.vSendNumber →
      s.vCache.size < s.vSendNumber - recv →
      (reconnectDispatchFrame s data).s.state = SName.reconnect_cache_error ∧
      (reconnectDispatchFrame s data).cb = some false) ∧
    (code = some [50, 48, 48] → recv < s.vSendNumber →
      s.vSendNumber - recv ≤ s.vCache.size →
      (reconnectDispatchFrame s data).s.state = SName.forward ∧
      (reconnectDispatchFrame s data).cb = some true ∧
      (reconnectDispatchFrame s data).s.vSendNumber = s.vSendNumber ∧
      (reconnectDispatchFrame s data).s.sock.sentWS =
        s.sock.sentWS ++ [s.vCache.entries.flatten.drop
          (sumLen s.vCache.entries - (s.vSendNumber - recv))]) ∧
    (code = some [50, 48, 48] → recv = s.vSendNumber →
      (reconnectDispatchFrame s data).s.state = SName.forward ∧
      (reconnectDispatchFrame s data).cb = some true ∧
      (reconnectDispatchFrame s data).s.vSendNumber = s.vSendNumber ∧
      (reconnectDispatchFrame s data).s.sock.sentWS = s.sock.sentWS) := by
  simp only [reconnectDispatchFrame]
  rw [hrecv, hcode, hcb]
  refine ⟨?_, ?_, ?_, ?_, ?_⟩
  · intro hne
    rw [if_pos hne]
    exact ⟨rfl, rfl⟩
  · intro hc hlt
    rw [if_neg (by simp [hc]), if_pos hlt]
    exact ⟨rfl, rfl⟩
  · intro hc hlt hsmall
    rw [if_neg (by simp [hc]), if_neg (by omega), if_pos hlt]
    have hget : s.vCache.get (s.vSendNumber - recv) = none := by
      unfold Cache.get
      rw [if_pos hsmall]
    rw [hget]
    exact ⟨rfl, rfl⟩
  · intro hc hlt hbig
    rw [if_neg (by simp [hc]), if_neg (by omega), if_pos hlt]
    rw [Cache.get_eq_of_wf s.vCache (s.vSendNumber - recv) hwf hbig]
    refine ⟨rfl, rfl, rfl, ?_⟩
    show (WSConn.send s.sock _).sentWS = _
    unfold WSConn.send
    rw [if_pos hsock]
  · intro hc heq
    rw [if_neg (by simp [hc]), if_neg (by omega), if_neg (by omega)]
    exact ⟨rfl, rfl, rfl, rfl⟩

/-- A reconnecting session with 5 bytes sent and cached, whose server
reply reports 3 bytes received ("3\n200\n"). -/
def sRecon : SConnSt :=
  { state := SName.reconnect,
    sock := ⟨WName.forward, [], [], [], none⟩,
    vId := 7,
    vSendNumber := 5,
    vRecvNumber := 0,
    vReconnectIndex := 1,
    vCache := insertAll [[1, 2, 3], [4, 5]],
    vSendBuf := [],
    recvBuf := ⟨[]⟩,
    reconnectCb := true,
    vSecret := [],
    vPrivateKey := none }

theorem mkIf_flatten (l : List Nat) :
    (JSBuffer.mk (if 0 < l.length then [l] else [])).data.flatten = l := by
  by_cases h : 0 < l.length
  · rw [if_pos h]; simp
  · rw [if_neg h]
    simp only [List.flatten_nil]
    have hz : l.length = 0 := by omega
    exact (List.eq_nil_of_length_eq_zero hz).symm

/-- One `popMsg` either leaves the buffered bytes unchanged, or removes
exactly one length-prefixed frame (header plus declared payload) from
their front. -/
theorem popMsg_flatten_cases (b : JSBuffer) (hl : Nat) (big : Bool) :
    ((b.popMsg hl big).1 = none ∧
      (b.popMsg hl big).2.data.flatten = b.data.flatten) ∨
    (∃ hdr msg, hdr.length = hl ∧ msg.length = decodeSz big hdr ∧
      b.data.flatten = hdr ++ msg ++ (b.popMsg hl big).2.data.flatten) := by
  by_cases h1 : b.data.flatten.length < hl
  · left
    unfold JSBuffer.popMsg
    rw [if_pos h1]
    exact ⟨rfl, mkIf_flatten _⟩
  · by_cases h2 : b.data.flatten.length < hl + decodeSz big (b.data.flatten.take hl)
    · left
      unfold JSBuffer.popMsg
      rw [if_neg h1, if_pos h2]
      exact ⟨rfl, by simp⟩
    · right
      refine ⟨b.data.flatten.take hl,
        (b.data.flatten.drop hl).take (decodeSz big (b.data.flatten.take hl)), ?_, ?_, ?_⟩
      · rw [List.length_take]; omega
      · rw [List.length_take, List.length_drop]; omega
      · unfold JSBuffer.popMsg
        rw [if_neg h1, if_neg h2]
        show b.data.flatten = _ ++ _ ++
          (JSBuffer.mk
            (if 0 < (b.data.flatten.drop
                (hl + decodeSz big (b.data.flatten.take hl))).length
              then [b.data.flatten.drop (hl + decodeSz big (b.data.flatten.take hl))]
              else [])).data.flatten
        rw [mkIf_flatten]
        conv_lhs => rw [← List.take_append_drop hl b.data.flatten]
        rw [List.append_assoc]
        congr 1
        conv_lhs => rw [← List.take_append_drop
          (decodeSz big (b.data.flatten.take hl)) (b.data.flatten.drop hl)]
        congr 1
        rw [List.drop_drop]

theorem WSConn.send_recvQ (w : WSConn) (d : List Nat) :
    (w.send d).recvQ = w.recvQ := by
  unfold WSConn.send
  split <;> rfl

theorem foldl_forwardSend_recvQ (l : List (List Nat)) (s : SConnSt) :
    (l.foldl forwardSend s).sock.recvQ = s.sock.recvQ := by
  induction l generalizing s with
  | nil => rfl
  | cons a t ih =>
    rw [List.foldl_cons, ih]
    exact WSConn.send_recvQ s.sock a

/-- The newconnect dispatch removes from the transport exactly what its
single `popMsg` removed. -/
theorem newconnectDispatch_recvQ (s : SConnSt) :
    (newconnectDispatch s).sock.recvQ =
      (JSBuffer.popMsg ⟨s.sock.recvQ⟩ 2 true).2.data := by
  simp only [newconnectDispatch, WSConn.popMsgW]
  cases hr : (JSBuffer.popMsg ⟨s.sock.recvQ⟩ 2 true).1 with
  | none => rfl
  | some data =>
    simp only
    rw [foldl_forwardSend_recvQ]
    split <;> rfl

theorem reconnectDispatchFrame_recvQ (s : SConnSt) (d : List Nat) :
    (reconnectDispatchFrame s d).s.sock.recvQ = s.sock.recvQ := by
  simp only [reconnectDispatchFrame]
  split
  · rfl
  · split
    · rfl
    · split
      · split
        · rfl
        · exact WSConn.send_recvQ s.sock _
      · rfl

/-- The reconnect dispatch removes from the transport exactly what its
single `popMsg` removed. -/
theorem reconnectDispatch_recvQ (s : SConnSt) :
    (reconnectDispatch s).s.sock.recvQ =
      (JSBuffer.popMsg ⟨s.sock.recvQ⟩ 2 true).2.data := by
  simp only [reconnectDispatch, WSConn.popMsgW]
  cases hr : (JSBuffer.popMsg ⟨s.sock.recvQ⟩ 2 true).1 with
  | none => rfl
  | some d =>
    simp only
    rw [reconnectDispatchFrame_recvQ]

/-- A forward-state session whose transport has buffered two complete
inbound frames (two websocket deliveries). -/
def sFwd2 : SConnSt :=
  { state := SName.forward,
    sock := ⟨WName.forward, [[0, 1, 65], [0, 1, 66]], [], [], none⟩,
    vId := 1,
    vSendNumber := 0,
    vRecvNumber := 0,
    vReconnectIndex := 0,
    vCache := Cache.empty,
    vSendBuf := [],
    recvBuf := ⟨[]⟩,
    reconnectCb := false,
    vSecret := [],
    vPrivateKey := none }

/-- C9 counterexample: a forward-state session with two buffered inbound
frames.  One `update()` drains both of them into the session receive
buffer (the forward dispatch calls `recv`, which pops everything), so the
dispatch consumed two frames, not at most one. -/
theorem c9_counterexample :
    sFwd2.sock.recvQ.length = 2 ∧
    (SConn.update sFwd2).1.s.sock.recvQ = [] ∧
    (SConn.update sFwd2).1.s.recvBuf.data.flatten = [0, 1, 65, 0, 1, 66] ∧
    ¬ sFwd2.sock.recvQ.length - (SConn.update sFwd2).1.s.sock.recvQ.length ≤ 1 := by
  decide

/-- C9 amended: when the transport is not in forward state, `update()`
fails and consumes nothing.  When it is, the newconnect and reconnect
dispatches consume at most one length-prefixed frame from the buffered
transport bytes; the forward dispatch drains the entire transport buffer
into the session receive buffer (counting the bytes); the error states
and `close` dispatch nothing. -/
theorem c9_update_consumption (s : SConnSt) :
    (s.sock.vState ≠ WName.forward →
      (SConn.update s).1.s.sock.recvQ = s.sock.recvQ ∧
      (SConn.update s).2 = false) ∧
    (s.sock.vState = WName.forward →
      ((s.state = SName.newconnect ∨ s.state = SName.reconnect) →
        (SConn.update s).1.s.sock.recvQ.flatten = s.sock.recvQ.flatten ∨
        ∃ hdr msg, hdr.length = 2 ∧ msg.length = decodeSz true hdr ∧
          s.sock.recvQ.flatten =
            hdr ++ msg ++ (SConn.update s).1.s.sock.recvQ.flatten) ∧
      (s.state = SName.forward →
        (SConn.update s).1.s.sock.recvQ = [] ∧
        (SConn.update s).1.s.recvBuf.data.flatten =
          s.recvBuf.data.flatten ++ s.sock.recvQ.flatten ∧
        (SConn.update s).1.s.vRecvNumber =
          s.vRecvNumber + s.sock.recvQ.flatten.length) ∧
      ((s.state = SName.reconnect_error ∨ s.state = SName.reconnect_match_error ∨
          s.state = SName.reconnect_cache_error ∨ s.state = SName.close) →
        (SConn.update s).1.s.sock.recvQ = s.sock.recvQ)) := by
  obtain ⟨st, ⟨vs, rq, sbuf, sw, se⟩, id, sn, rn, ri, ca, sb, rb, rc, sec, pk⟩ := s
  constructor
  · intro hne
    cases vs with
    | forward => exact absurd rfl hne
    | connect => exact ⟨rfl, rfl⟩
    | closeW => exact ⟨rfl, rfl⟩
  · intro hf
    have hf2 : vs = WName.forward := hf
    subst hf2
    refine ⟨?_, ?_, ?_⟩
    · intro hstate
      cases hstate with
      | inl h =>
        have h2 : st = SName.newconnect := h
        subst h2
        have key :
            (SConn.update ⟨SName.newconnect, ⟨WName.forward, rq, sbuf, sw, se⟩,
                id, sn, rn, ri, ca, sb, rb, rc, sec, pk⟩).1.s.sock.recvQ =
              (JSBuffer.popMsg ⟨rq⟩ 2 true).2.data :=
          newconnectDispatch_recvQ _
        rcases popMsg_flatten_cases ⟨rq⟩ 2 true with ⟨_, h2⟩ | ⟨hdr, msg, hh, hm, hsplit⟩
        · left
          rw [key]
          exact h2
        · right
          exact ⟨hdr, msg, hh, hm, by rw [key]; exact hsplit⟩
      | inr h =>
        have h2 : st = SName.reconnect := h
        subst h2
        have key :
            (SConn.update ⟨SName.reconnect, ⟨WName.forward, rq, sbuf, sw, se⟩,
                id, sn, rn, ri, ca, sb, rb, rc, sec, pk⟩).1.s.sock.recvQ =
              (JSBuffer.popMsg ⟨rq⟩ 2 true).2.data :=
          reconnectDispatch_recvQ _
        rcases popMsg_flatten_cases ⟨rq⟩ 2 true with ⟨_, h2⟩ | ⟨hdr, msg, hh, hm, hsplit⟩
        · left
          rw [key]
          exact h2
        · right
          exact ⟨hdr, msg, hh, hm, by rw [key]; exact hsplit⟩
    · intro hstate
      have h2 : st = SName.forward := hstate
      subst h2
      refine ⟨rfl, ?_, rfl⟩
      show (rb.push rq.flatten).data.flatten = rb.data.flatten ++ rq.flatten
      simp [JSBuffer.push]
    · intro hstate
      rcases hstate with h | h | h | h <;>
        (have h2 := h; subst h2; rfl)

theorem c9_update_consumption_witness :
    (SConn.update sFwd2).1.s.sock.recvQ = [] ∧
    (SConn.update sFwd2).1.s.vRecvNumber = 6 := by
  have h := ((c9_update_consumption sFwd2).2 rfl).2.1 rfl
  refine ⟨h.1, ?_⟩
  rw [h.2.2]
  decide

theorem c3_reconnect_dispatch_witness :
    (reconnectDispatchFrame sRecon [51, 10, 50, 48, 48, 10]).s.state =
      SName.forward ∧
    (reconnectDispatchFrame sRecon [51, 10, 50, 48, 48, 10]).cb = some true ∧
    (reconnectDispatchFrame sRecon [51, 10, 50, 48, 48, 10]).s.sock.sentWS =
      [[4, 5]] := by
  have h := ((c3_reconnect_dispatch sRecon [51, 10, 50, 48, 48, 10] 3
      (some [50, 48, 48]) rfl rfl (by decide) (by decide)
      (by decide)).2.2.2.1) rfl (by decide) (by decide)
  refine ⟨h.1, h.2.1, ?_⟩
  rw [h.2.2.2]
  decide

/-! ## The request-response host (sconn.ts, class `Network`, 947-1222)

`call()` registers a session and returns a promise; the promise's
executor rejects it with "Failed to send request" when `request` fails
(no sproto client or no connection; the sproto encoding itself is taken
as the given payload).  The promise lifecycle is modelled explicitly:
`pendingP` until the resolver stored in the session item runs.  The
duplicate-session throw in `call` cannot fire (`sessionIndex` is bumped
on every call and sessions are only keyed by a past index), so it is
not modelled. -/

inductive PromSt where
  | pendingP
  | resolvedP
  | rejectedP (msg : String)
deriving DecidableEq, Repr

structure NetworkSt where
  sessionIndex : Nat
  requestSession : List (Nat × String)
  responseHandle : List String
  connection : Option SConnSt
  promises : List (Nat × PromSt)
deriving DecidableEq, Repr

/-- `SConn.sendMsg` (sconn.ts 835-845): 2-byte big-endian length prefix,
then the current state's `send` (newconnect buffers, forward transmits
and caches, reconnect counts and caches, the other states drop). -/
def sendMsgS (s : SConnSt) (data : List Nat) : SConnSt :=
  let packed := packData data 2 true
  match s.state with
  | .newconnect => { s with vSendBuf := s.vSendBuf ++ [packed] }
  | .forward => forwardSend s packed
  | .reconnect =>
    { s with
      vSendNumber := s.vSendNumber + packed.length,
      vCache := s.vCache.insert packed }
  | _ => s

/-- `Network.call` (sconn.ts 1146-1171). -/
def networkCall (st : NetworkSt) (pname : String) (payload : List Nat) :
    NetworkSt :=
  let idx := st.sessionIndex
  let st1 :=
    { st with
      sessionIndex := idx + 1,
      requestSession := st.requestSession ++ [(idx, pname)] }
  match st1.connection with
  | some c =>
    { st1 with
      connection := some (sendMsgS c payload),
      promises := st1.promises ++ [(idx, .pendingP)] }
  | none =>
    { st1 with
      promises := st1.promises ++ [(idx, .rejectedP "Failed to send request")] }

/-- `Network.close` (sconn.ts 1212-1219): close and drop the connection,
clear the session and handler tables.  The second component records the
session object the host discarded (observable post-`close()` state). -/
def networkClose (st : NetworkSt) : NetworkSt × Option SConnSt :=
  match st.connection with
  | some c =>
    ({ st with connection := none, requestSession := [], responseHandle := [] },
      some (SConn.close c))
  | none =>
    ({ st with connection := none, requestSession := [], responseHandle := [] },
      none)

/-- A connected host holding a freshly-connected forward-state session. -/
def sconn0 : SConnSt :=
  { state := SName.forward,
    sock := ⟨WName.forward, [], [], [], none⟩,
    vId := 1,
    vSendNumber := 0,
    vRecvNumber := 0,
    vReconnectIndex := 0,
    vCache := Cache.empty,
    vSendBuf := [],
    recvBuf := ⟨[]⟩,
    reconnectCb := false,
    vSecret := [],
    vPrivateKey := none }

def net0 : NetworkSt := ⟨0, [], [], some sconn0, []⟩

def net1 : NetworkSt := networkCall net0 "echo" [1, 2]

/-- C8 counterexample: a `call()` made on a connected host leaves a
pending promise; `close()` clears the tables but never settles it — in
particular it is not rejected with a "closed" error, contradicting the
claim that no pending future is left unsettled. -/
theorem c8_counterexample :
    net1.promises = [(0, PromSt.pendingP)] ∧
    (networkClose net1).1.promises = [(0, PromSt.pendingP)] ∧
    (0, PromSt.rejectedP "closed") ∉ (networkClose net1).1.promises ∧
    (networkClose net1).1.requestSession = [] := by
  decide

/-- C8 amended: `close()` drops the connection and clears the session and
handler tables, and the dropped session object is in the `close` state
with its receive buffer cleared and its socket closed; the promises
returned by earlier `call()`s are left exactly as they were — pending
ones stay pending, none is rejected. -/
theorem c8_close_behavior (st : NetworkSt) :
    (networkClose st).1.connection = none ∧
    (networkClose st).1.requestSession = [] ∧
    (networkClose st).1.responseHandle = [] ∧
    (networkClose st).1.promises = st.promises ∧
    (∀ c, st.connection = some c →
      (networkClose st).2 = some (SConn.close c) ∧
      (SConn.close c).state = SName.close ∧
      (SConn.close c).recvBuf = ⟨[]⟩ ∧
      (SConn.close c).sock.vState = WName.closeW) := by
  obtain ⟨si, rs, rh, conn, pr⟩ := st
  cases conn with
  | none =>
    refine ⟨rfl, rfl, rfl, rfl, ?_⟩
    intro c hc
    exact absurd hc (by simp)
  | some c =>
    refine ⟨rfl, rfl, rfl, rfl, ?_⟩
    intro c2 hc
    have hcc : c = c2 := by
      simpa using hc
    subst hcc
    exact ⟨rfl, rfl, rfl, rfl⟩

theorem c8_close_behavior_witness :
    (networkClose net1).1.connection = none ∧
    (networkClose net1).1.promises = net1.promises ∧
    (SConn.close (sendMsgS sconn0 [1, 2])).state = SName.close := by
  have h := c8_close_behavior net1
  refine ⟨h.1, h.2.2.2.1, ?_⟩
  exact (h.2.2.2.2 (sendMsgS sconn0 [1, 2]) (by decide)).2.1

end Sconn
